import Mathlib

/-!
Verification of the site-blocker daemon (`src/daemon/site_blocker.py`).

Strings from the Python program are embedded as `List Char`; instants
(`datetime.now()`, `timedelta(minutes=…)`) are embedded as `Int`, with one
unit of `Int` standing for one minute, so `datetime.now() + timedelta(minutes=m)`
becomes `now + m` and datetime comparison becomes integer comparison.
Each definition is translated from the named Python function.
-/

namespace SiteBlocker

/-- A hostname / line of text, as a sequence of characters. -/
abbrev Hostname := List Char

/-- The whitespace characters stripped by Python `str.strip()`. -/
def pyIsSpace (c : Char) : Bool :=
  c = ' ' || c = '\t' || c = '\n' || c = '\r' || c = '\x0b' || c = '\x0c'

/-- Python `str.strip()`: remove leading and trailing whitespace. -/
def pyStrip (l : List Char) : List Char :=
  ((l.dropWhile pyIsSpace).reverse.dropWhile pyIsSpace).reverse

/-- Python `str.lower()` (ASCII case folding). -/
def pyLower (l : List Char) : List Char :=
  l.map Char.toLower

/-- Embeds `site.lower().strip()`, the normalization applied by every Config method. -/
def normalize (s : Hostname) : Hostname :=
  pyStrip (pyLower s)

/-- The literal `"www."`. -/
def wwwDot : List Char := ['w', 'w', 'w', '.']

/-- Python `needle == hay[:len(needle)]`: Boolean prefix test. -/
def isPrefixB : List Char → List Char → Bool
  | [], _ => true
  | _ :: _, [] => false
  | a :: n, b :: h => a == b && isPrefixB n h

/-- Python `needle in hay`: Boolean substring containment test. -/
def containsSub (needle : List Char) : List Char → Bool
  | [] => isPrefixB needle []
  | c :: t => isPrefixB needle (c :: t) || containsSub needle t

/-- One entry of `Config.exceptions`: the dict `{"site": …, "until": …}`.
`untilT` embeds the `"until"` ISO timestamp (`until` is a Lean keyword). -/
structure Exc where
  site : Hostname
  untilT : Int
deriving DecidableEq, Repr

/-- The in-memory state of the Python `Config` object. -/
structure Config where
  blocked_sites : List Hostname
  exceptions : List Exc
  enabled : Bool
deriving DecidableEq, Repr

/-- Embeds `Config.add_site`: add the normalized site and its bare/`www.` variant to
`blocked_sites`, skipping variants already present.  The Python code iterates
a two-element `set`; its iteration order is unspecified, so we fix the order
`[site, other]` — membership in the result does not depend on that order. -/
def add_site (site : Hostname) (cfg : Config) : Config :=
  let s := normalize site
  let other := if isPrefixB wwwDot s then s.drop 4 else wwwDot ++ s
  let bs := [s, other].foldl
    (fun bs v => if v ∈ bs then bs else bs ++ [v]) cfg.blocked_sites
  { cfg with blocked_sites := bs }

/-- Embeds `Config.remove_site`: drop the normalized site and its bare/`www.` variant
from `blocked_sites`. -/
def remove_site (site : Hostname) (cfg : Config) : Config :=
  let s := normalize site
  let variants := if isPrefixB wwwDot s then [s, s.drop 4] else [s, wwwDot ++ s]
  { cfg with blocked_sites := cfg.blocked_sites.filter (fun x => ¬ x ∈ variants) }

/-- Embeds `Config.add_exception`: drop any exception stored for the normalized site,
then append a fresh one expiring at `now + minutes`. -/
def add_exception (site : Hostname) (minutes : Int) (now : Int) (cfg : Config) :
    Config :=
  let s := normalize site
  let u := now + minutes
  { cfg with exceptions :=
      cfg.exceptions.filter (fun e => ¬ e.site = s) ++ [⟨s, u⟩] }

/-- Embeds `Config.remove_exception`: drop any exception stored for the normalized
site. -/
def remove_exception (site : Hostname) (cfg : Config) : Config :=
  let s := normalize site
  { cfg with exceptions := cfg.exceptions.filter (fun e => ¬ e.site = s) }

/-- Embeds `Config.get_active_exceptions`: partition exceptions into active
(`until > now`) and expired; if any expired, remove them (and `save()`).
Returns `(active site list, updated state, whether save() was called)`. -/
def get_active_exceptions (now : Int) (cfg : Config) :
    List Hostname × Config × Bool :=
  let active := (cfg.exceptions.filter (fun e => now < e.untilT)).map (·.site)
  let expired := cfg.exceptions.filter (fun e => ¬ now < e.untilT)
  if expired.isEmpty then
    (active, cfg, false)
  else
    (active, { cfg with exceptions :=
      cfg.exceptions.filter (fun e => ¬ e ∈ expired) }, true)

/-- Embeds `Config.get_effective_blocklist`: `[]` when disabled, otherwise the blocked
sites minus the active exceptions.  Returns the list together with the updated
state and the save flag from `get_active_exceptions`. -/
def get_effective_blocklist (now : Int) (cfg : Config) :
    List Hostname × Config × Bool :=
  if ¬ cfg.enabled then ([], cfg, false)
  else
    let r := get_active_exceptions now cfg
    (r.2.1.blocked_sites.filter (fun s => ¬ r.1.contains s), r.2.1, r.2.2)

/-! ## HostsManager (`site_blocker.py`, `HostsManager`)

The hosts file content is a `List Char`.  `content.split("\n")` and
`"\n".join(lines)` are embedded as `splitOnNl` / `joinNl`. -/

/-- The constant `MARKER_START`. -/
def MARKER_START : List Char := "# === SITE BLOCKER START ===".data

/-- The constant `MARKER_END`. -/
def MARKER_END : List Char := "# === SITE BLOCKER END ===".data

/-- The constant `REDIRECT_IP`. -/
def REDIRECT_IP : List Char := "127.0.0.1".data

/-- One rendered region line: `f"{REDIRECT_IP}  {site}"`. -/
def entryLine (site : Hostname) : List Char :=
  REDIRECT_IP ++ [' ', ' '] ++ site

/-- Python `content.split("\n")`. -/
def splitOnNl : List Char → List (List Char)
  | [] => [[]]
  | c :: cs =>
    if c = '\n' then [] :: splitOnNl cs
    else
      match splitOnNl cs with
      | [] => [[c]]
      | l :: ls => (c :: l) :: ls

/-- Python `"\n".join(lines)`. -/
def joinNl : List (List Char) → List Char
  | [] => []
  | [l] => l
  | l :: l' :: ls => l ++ '\n' :: joinNl (l' :: ls)

/-- The line-scanning loop of `HostsManager._strip_our_entries`: drop every
line containing a marker, toggle the `inside_block` flag on markers, keep
lines outside the block. -/
def stripLoop : List (List Char) → Bool → List (List Char)
  | [], _ => []
  | l :: ls, inside =>
    if containsSub MARKER_START l then stripLoop ls true
    else if containsSub MARKER_END l then stripLoop ls false
    else if inside then stripLoop ls inside
    else l :: stripLoop ls inside

/-- A line that is blank after `strip()` (the `result[-1].strip() == ""` test). -/
def isBlankLine (l : List Char) : Bool :=
  (pyStrip l).isEmpty

/-- The `while result and result[-1].strip() == "": result.pop()` loop. -/
def dropTrailingBlanks (ls : List (List Char)) : List (List Char) :=
  (ls.reverse.dropWhile isBlankLine).reverse

/-- Embeds `HostsManager._strip_our_entries`. -/
def stripOur (content : List Char) : List Char :=
  joinNl (dropTrailingBlanks (stripLoop (splitOnNl content) false))

/-- Embeds `HostsManager.apply_blocklist`, as a function from old file content to new
file content (`_read_hosts`/`_write_hosts` become the argument and result). -/
def apply_blocklist (sites : List Hostname) (content : List Char) : List Char :=
  let clean := stripOur content
  if sites.isEmpty then clean
  else
    let block := ('\n' :: MARKER_START) :: sites.map entryLine ++ [MARKER_END]
    clean ++ (joinNl block ++ ['\n'])

/-- Embeds `HostsManager.clear`. -/
def clear (content : List Char) : List Char :=
  stripOur content

/-- Python `line.split()` (split on whitespace runs, no empty tokens);
`acc` accumulates the current token reversed. -/
def splitWsAux : List Char → List Char → List (List Char)
  | [], acc => if acc.isEmpty then [] else [acc.reverse]
  | c :: cs, acc =>
    if pyIsSpace c then
      if acc.isEmpty then splitWsAux cs [] else acc.reverse :: splitWsAux cs []
    else splitWsAux cs (c :: acc)

/-- Python `line.split()`. -/
def splitWs (l : List Char) : List (List Char) :=
  splitWsAux l []

/-- The line-scanning loop of `HostsManager.get_current_blocks`: inside the
marker block, collect `parts[1]` of every non-blank line with at least two
whitespace-separated tokens. -/
def collectLoop : List (List Char) → Bool → List Hostname
  | [], _ => []
  | l :: ls, inside =>
    if containsSub MARKER_START l then collectLoop ls true
    else if containsSub MARKER_END l then collectLoop ls false
    else if inside && ¬ (pyStrip l).isEmpty then
      match splitWs l with
      | _ :: s :: _ => s :: collectLoop ls inside
      | _ => collectLoop ls inside
    else collectLoop ls inside

/-- Embeds `HostsManager.get_current_blocks`. -/
def get_current_blocks (content : List Char) : List Hostname :=
  collectLoop (splitOnNl content) false

/-! ## Persistence trace of `Config.save`

`Config.save` is I/O; we embed the sequence of file-system operations it
performs.  `openTruncate p` is `open(p, "w")` (which truncates an existing
file in place), `write p d` is the subsequent `json.dump`, `rename src dst`
is an `os.rename`/`os.replace` (which the source never performs). -/

/-- An observable file-system operation. -/
inductive FsOp where
  | openTruncate (path : List Char)
  | write (path : List Char) (data : List Char)
  | rename (src dst : List Char)
deriving DecidableEq, Repr

/-- The file-system operations performed by `Config.save` on config path
`path` with serialized policy `data`: `with open(self.path, "w") as f:
json.dump(data, f, indent=2)`. -/
def saveOps (path data : List Char) : List FsOp :=
  [FsOp.openTruncate path, FsOp.write path data]

/-- Tests whether an operation renames some file onto `target`. -/
def isRenameTo (target : List Char) : FsOp → Bool
  | .rename _ dst => dst == target
  | _ => false

/-- Tests whether an operation is a rename at all. -/
def isRename : FsOp → Bool
  | .rename _ _ => true
  | _ => false

/-- Modelled from the spec: a trace persists `target` by write-then-replace
when it renames some freshly written file onto `target` and never opens
`target` itself in truncating write mode. -/
def writeThenReplace (target : List Char) (ops : List FsOp) : Prop :=
  (∃ op ∈ ops, isRenameTo target op = true) ∧ FsOp.openTruncate target ∉ ops

instance (target : List Char) (ops : List FsOp) :
    Decidable (writeThenReplace target ops) :=
  decidable_of_iff
    ((∃ op ∈ ops, isRenameTo target op = true) ∧ FsOp.openTruncate target ∉ ops)
    Iff.rfl

/-- A trace that rewrites `target` by in-place truncation: it opens `target`
itself in truncating write mode and performs no rename at all. -/
def inPlaceTruncation (target : List Char) (ops : List FsOp) : Prop :=
  FsOp.openTruncate target ∈ ops ∧ ∀ op ∈ ops, isRename op = false

/-! ## Control API (`APIHandler.do_POST`) -/

/-- The POST routes dispatched on `self.path` (any other path is `other`). -/
inductive ApiRoute where
  | addSite
  | removeSite
  | addException
  | removeException
  | toggle
  | other
deriving DecidableEq, Repr

/-- The parsed JSON request body: `body.get("site", "")` yields `""` when the
field is absent, `body.get("minutes", 15)` yields `15` when absent. -/
structure ReqBody where
  site : Option Hostname
  minutes : Option Int
deriving DecidableEq, Repr

/-- The outcome of one `do_POST` call: HTTP status, updated Config state,
whether the config file was saved, and whether the hosts file was rewritten
(via `_apply_and_respond` → `apply_blocklist`). -/
structure PostResult where
  status : Nat
  cfg : Config
  configSaved : Bool
  hostsWritten : Bool
deriving DecidableEq, Repr

/-- Embeds `_apply_and_respond`: recompute the effective blocklist (which may prune
and save) and rewrite the hosts file, answering 200. -/
def apply_and_respond (now : Int) (saved : Bool) (cfg : Config) : PostResult :=
  let r := get_effective_blocklist now cfg
  ⟨200, r.2.1, saved || r.2.2, true⟩

/-- Embeds `APIHandler.do_POST`: validate the `site` field, mutate, re-apply.
Every `Config` mutator calls `save()`, so a successful mutation has
`configSaved = true`; the 400 branches touch nothing. -/
def do_POST (now : Int) (route : ApiRoute) (body : ReqBody) (cfg : Config) :
    PostResult :=
  let site := body.site.getD []
  match route with
  | .addSite =>
    if ¬ site.isEmpty then apply_and_respond now true (add_site site cfg)
    else ⟨400, cfg, false, false⟩
  | .removeSite =>
    if ¬ site.isEmpty then apply_and_respond now true (remove_site site cfg)
    else ⟨400, cfg, false, false⟩
  | .addException =>
    let minutes := body.minutes.getD 15
    if ¬ site.isEmpty then
      apply_and_respond now true (add_exception site minutes now cfg)
    else ⟨400, cfg, false, false⟩
  | .removeException =>
    if ¬ site.isEmpty then apply_and_respond now true (remove_exception site cfg)
    else ⟨400, cfg, false, false⟩
  | .toggle =>
    apply_and_respond now true { cfg with enabled := ¬ cfg.enabled }
  | .other => ⟨404, cfg, false, false⟩

/-- A well-formed hostname: contains neither a newline (which would break the
line structure of the hosts file) nor `#` (so it cannot spell a marker line). -/
def validHost (s : Hostname) : Prop :=
  '\n' ∉ s ∧ '#' ∉ s

instance (s : Hostname) : Decidable (validHost s) :=
  decidable_of_iff ('\n' ∉ s ∧ '#' ∉ s) Iff.rfl

/-- A sequence of `apply_blocklist` calls folded over the file content
(`clear` is `apply_blocklist []`). -/
def applySeq (c : List Char) (calls : List (List Hostname)) : List Char :=
  calls.foldl (fun acc S => apply_blocklist S acc) c

/-! Section: helper lemmas about the policy store. -/

theorem gae_fst (now : Int) (cfg : Config) :
    (get_active_exceptions now cfg).1 =
      (cfg.exceptions.filter (fun e => now < e.untilT)).map (·.site) := by
  unfold get_active_exceptions
  dsimp only
  split <;> rfl

theorem gae_blocked (now : Int) (cfg : Config) :
    (get_active_exceptions now cfg).2.1.blocked_sites = cfg.blocked_sites := by
  unfold get_active_exceptions
  dsimp only
  split <;> rfl

theorem gae_enabled (now : Int) (cfg : Config) :
    (get_active_exceptions now cfg).2.1.enabled = cfg.enabled := by
  unfold get_active_exceptions
  dsimp only
  split <;> rfl

theorem contains_active_iff (now : Int) (cfg : Config) (s : Hostname) :
    (((cfg.exceptions.filter (fun e => now < e.untilT)).map (·.site)).contains s
      = true) ↔ ∃ e ∈ cfg.exceptions, e.site = s ∧ now < e.untilT := by
  simp only [List.contains, List.elem_iff, List.mem_map, List.mem_filter,
    decide_eq_true_iff]
  constructor
  · rintro ⟨e, ⟨he, hu⟩, hs⟩
    exact ⟨e, he, hs, hu⟩
  · rintro ⟨e, he, hs, hu⟩
    exact ⟨e, ⟨he, hu⟩, hs⟩

theorem effective_eq (now : Int) (cfg : Config) :
    (get_effective_blocklist now cfg).1 =
      if cfg.enabled = true then
        cfg.blocked_sites.filter
          (fun s => ¬ ∃ e ∈ cfg.exceptions, e.site = s ∧ now < e.untilT)
      else [] := by
  by_cases hen : cfg.enabled
  · simp only [get_effective_blocklist, hen, not_true_eq_false, if_neg,
      if_pos, ite_false, ite_true]
    rw [gae_blocked, gae_fst]
    refine List.filter_congr fun s _ => ?_
    rw [decide_eq_decide]
    exact not_congr (contains_active_iff now cfg s)
  · simp [get_effective_blocklist, hen]

theorem mem_effective_iff (now : Int) (cfg : Config) (s : Hostname) :
    s ∈ (get_effective_blocklist now cfg).1 ↔
      cfg.enabled = true ∧ s ∈ cfg.blocked_sites ∧
        ¬ ∃ e ∈ cfg.exceptions, e.site = s ∧ now < e.untilT := by
  rw [effective_eq]
  by_cases hen : cfg.enabled
  · simp [hen, List.mem_filter]
  · simp [hen]

theorem effective_state (now : Int) (cfg : Config) (hen : cfg.enabled = true) :
    (get_effective_blocklist now cfg).2 = (get_active_exceptions now cfg).2 := by
  simp [get_effective_blocklist, hen]

theorem gae_active_after (now : Int) (cfg : Config) :
    ∀ e ∈ (get_active_exceptions now cfg).2.1.exceptions, now < e.untilT := by
  unfold get_active_exceptions
  dsimp only
  split
  · rename_i h
    rw [List.isEmpty_iff, List.filter_eq_nil_iff] at h
    intro e he
    have := h e he
    simpa using this
  · rename_i h
    intro e he
    rw [List.mem_filter] at he
    have h2 : ¬ e ∈ cfg.exceptions.filter (fun e => ¬ now < e.untilT) := by
      have h3 := he.2
      simp only [decide_eq_true_iff] at h3
      exact h3
    by_contra hlt
    exact h2 (List.mem_filter.mpr ⟨he.1, by simpa using hlt⟩)

theorem gae_saved_iff (now : Int) (cfg : Config) :
    (get_active_exceptions now cfg).2.2 = true ↔
      ∃ e ∈ cfg.exceptions, e.untilT ≤ now := by
  unfold get_active_exceptions
  dsimp only
  split
  · rename_i h
    rw [List.isEmpty_iff, List.filter_eq_nil_iff] at h
    simp only [Bool.false_eq_true, false_iff, not_exists]
    intro e hc
    obtain ⟨he, hle⟩ := hc
    have := h e he
    simp only [decide_eq_true_iff, not_not] at this
    omega
  · rename_i h
    rw [List.isEmpty_iff] at h
    simp only [true_iff]
    obtain ⟨e, he⟩ := List.exists_mem_of_ne_nil _ h
    rw [List.mem_filter] at he
    refine ⟨e, he.1, ?_⟩
    have := he.2
    simp only [decide_eq_true_iff, not_lt] at this
    exact this

/-- Claim C3: for every policy state and evaluation time,
`get_effective_blocklist` returns `[]` when `enabled` is false, and otherwise
exactly the blocked sites, in stored order, that have no exception with expiry
strictly later than the current time. -/
theorem c3_effective_blocklist (now : Int) (cfg : Config) :
    (get_effective_blocklist now cfg).1 =
      if cfg.enabled = true then
        cfg.blocked_sites.filter
          (fun s => ¬ ∃ e ∈ cfg.exceptions, e.site = s ∧ now < e.untilT)
      else [] :=
  effective_eq now cfg

/-- Claim C4, amended: when `enabled` is true, `get_effective_blocklist`
prunes expired exceptions — afterwards every stored exception has expiry
strictly after `now`, and a save happens iff at least one exception was
removed.  When `enabled` is false the method returns early and does not prune
(see the counterexample). -/
theorem c4_prune_when_enabled (now : Int) (cfg : Config)
    (hen : cfg.enabled = true) :
    (∀ e ∈ (get_effective_blocklist now cfg).2.1.exceptions, now < e.untilT) ∧
    ((get_effective_blocklist now cfg).2.2 = true ↔
      ∃ e ∈ cfg.exceptions, e.untilT ≤ now) := by
  rw [effective_state now cfg hen]
  exact ⟨gae_active_after now cfg, gae_saved_iff now cfg⟩

/-- Claim C4, counterexample: with `enabled = false` and one already-expired
exception, `get_effective_blocklist` neither prunes the exception nor saves,
refuting "every call … regardless of the enabled flag … first prunes expired
exceptions". -/
theorem c4_counterexample :
    (get_effective_blocklist 1 ⟨[], [⟨['a'], 0⟩], false⟩).2.1.exceptions
        = [⟨['a'], 0⟩] ∧
    (get_effective_blocklist 1 ⟨[], [⟨['a'], 0⟩], false⟩).2.2 = false ∧
    ¬ (∀ e ∈ (get_effective_blocklist 1 ⟨[], [⟨['a'], 0⟩], false⟩).2.1.exceptions,
        (1 : Int) < e.untilT) := by
  decide

/-- Witness for the amended Claim C4 at a concrete state. -/
theorem c4_prune_when_enabled_witness :
    (∀ e ∈ (get_effective_blocklist 0
        ⟨[['a']], [⟨['b'], 3⟩, ⟨['c'], -2⟩], true⟩).2.1.exceptions,
      (0 : Int) < e.untilT) ∧
    ((get_effective_blocklist 0
        ⟨[['a']], [⟨['b'], 3⟩, ⟨['c'], -2⟩], true⟩).2.2 = true ↔
      ∃ e ∈ [Exc.mk ['b'] 3, Exc.mk ['c'] (-2)], e.untilT ≤ 0) :=
  c4_prune_when_enabled 0 ⟨[['a']], [⟨['b'], 3⟩, ⟨['c'], -2⟩], true⟩ rfl

/-- Claim C7: `add_exception` is a last-writer-wins upsert — afterwards the
exceptions for the normalized hostname are exactly the one new entry expiring
at `now + minutes`, and the exceptions for every other hostname are
unchanged. -/
theorem c7_add_exception_upsert (site : Hostname) (minutes now : Int)
    (cfg : Config) :
    (add_exception site minutes now cfg).exceptions.filter
        (fun e => e.site = normalize site) = [⟨normalize site, now + minutes⟩] ∧
    (add_exception site minutes now cfg).exceptions.filter
        (fun e => ¬ e.site = normalize site) =
      cfg.exceptions.filter (fun e => ¬ e.site = normalize site) := by
  unfold add_exception
  dsimp only
  constructor
  · rw [List.filter_append]
    have h1 : (cfg.exceptions.filter (fun e => ¬ e.site = normalize site)).filter
        (fun e => e.site = normalize site) = [] := by
      rw [List.filter_eq_nil_iff]
      intro e he
      rw [List.mem_filter] at he
      simpa using he.2
    rw [h1]
    simp
  · rw [List.filter_append]
    have h2 : List.filter (fun e => decide (¬ e.site = normalize site))
        [Exc.mk (normalize site) (now + minutes)] = [] := by
      simp
    have h3 : (cfg.exceptions.filter (fun e => ¬ e.site = normalize site)).filter
        (fun e => ¬ e.site = normalize site) =
        cfg.exceptions.filter (fun e => ¬ e.site = normalize site) := by
      rw [List.filter_eq_self]
      intro e he
      rw [List.mem_filter] at he
      exact he.2
    rw [h2, h3, List.append_nil]

theorem isPrefixB_append_drop (p : List Char) :
    ∀ l, isPrefixB p l = true → p ++ l.drop p.length = l := by
  induction p with
  | nil => intro l _; simp
  | cons a p ih =>
    intro l h
    cases l with
    | nil => simp [isPrefixB] at h
    | cons b l' =>
      rw [isPrefixB, Bool.and_eq_true, beq_iff_eq] at h
      obtain ⟨hab, hrest⟩ := h
      subst hab
      simpa using ih l' hrest

theorem mem_insVariant (bs : List Hostname) (v x : Hostname) :
    x ∈ (if v ∈ bs then bs else bs ++ [v]) ↔ x ∈ bs ∨ x = v := by
  split
  · rename_i hv
    constructor
    · exact Or.inl
    · rintro (h | h)
      · exact h
      · rw [h]; exact hv
  · simp [List.mem_append]

theorem nodup_insVariant (bs : List Hostname) (v : Hostname)
    (h : bs.Nodup) : (if v ∈ bs then bs else bs ++ [v]).Nodup := by
  split
  · exact h
  · rename_i hv
    simp [List.nodup_append, h, hv]

theorem wwwDot_append_ne (n : Hostname) : wwwDot ++ n ≠ n := by
  intro h
  have := congrArg List.length h
  simp only [wwwDot, List.length_append, List.length_cons, List.length_nil] at this
  omega

/-- Claim C5: `add_site` puts both the normalized bare hostname and its
`www.`-prefixed variant into `blocked_sites` without introducing duplicates;
`remove_site` removes both variants; and `remove_site` on an absent hostname
is a no-op that leaves the state unchanged. -/
theorem c5_site_variants (site : Hostname) (cfg : Config) (bare www : Hostname)
    (hbare : bare = if isPrefixB wwwDot (normalize site) = true
      then (normalize site).drop 4 else normalize site)
    (hwww : www = wwwDot ++ bare) :
    (bare ∈ (add_site site cfg).blocked_sites ∧
     www ∈ (add_site site cfg).blocked_sites) ∧
    (cfg.blocked_sites.Nodup → (add_site site cfg).blocked_sites.Nodup) ∧
    (¬ bare ∈ (remove_site site cfg).blocked_sites ∧
     ¬ www ∈ (remove_site site cfg).blocked_sites) ∧
    (¬ bare ∈ cfg.blocked_sites → ¬ www ∈ cfg.blocked_sites →
      remove_site site cfg = cfg) := by
  subst hwww
  subst hbare
  unfold add_site remove_site
  dsimp only
  simp only [List.foldl]
  by_cases hp : isPrefixB wwwDot (normalize site) = true
  · have hdrop : wwwDot ++ (normalize site).drop 4 = normalize site := by
      have h4 : (4 : Nat) = wwwDot.length := rfl
      rw [h4]
      exact isPrefixB_append_drop wwwDot (normalize site) hp
    simp only [hp, if_true, hdrop]
    refine ⟨⟨?_, ?_⟩, ?_, ⟨?_, ?_⟩, ?_⟩
    · rw [mem_insVariant]
      exact Or.inr rfl
    · rw [mem_insVariant, mem_insVariant]
      exact Or.inl (Or.inr rfl)
    · intro h
      exact nodup_insVariant _ _ (nodup_insVariant _ _ h)
    · intro hmem
      rw [List.mem_filter] at hmem
      have := hmem.2
      simp at this
    · intro hmem
      rw [List.mem_filter] at hmem
      have := hmem.2
      simp at this
    · intro hb hw
      have hf : cfg.blocked_sites.filter
          (fun x => ¬ x ∈ [normalize site, (normalize site).drop 4]) =
          cfg.blocked_sites := by
        rw [List.filter_eq_self]
        intro x hx
        simp only [decide_eq_true_iff, List.mem_cons, List.mem_singleton]
        rintro (h | h | h)
        · exact hw (h ▸ hx)
        · exact hb (h ▸ hx)
        · cases h
      rw [hf]
  · simp only [hp, if_false, Bool.not_eq_true] at *
    simp only [hp, Bool.false_eq_true, if_false]
    refine ⟨⟨?_, ?_⟩, ?_, ⟨?_, ?_⟩, ?_⟩
    · rw [mem_insVariant, mem_insVariant]
      exact Or.inl (Or.inr rfl)
    · rw [mem_insVariant]
      exact Or.inr rfl
    · intro h
      exact nodup_insVariant _ _ (nodup_insVariant _ _ h)
    · intro hmem
      rw [List.mem_filter] at hmem
      have := hmem.2
      simp at this
    · intro hmem
      rw [List.mem_filter] at hmem
      have := hmem.2
      simp at this
    · intro hb hw
      have hf : cfg.blocked_sites.filter
          (fun x => ¬ x ∈ [normalize site, wwwDot ++ normalize site]) =
          cfg.blocked_sites := by
        rw [List.filter_eq_self]
        intro x hx
        simp only [decide_eq_true_iff, List.mem_cons, List.mem_singleton]
        rintro (h | h | h)
        · exact hb (h ▸ hx)
        · exact hw (h ▸ hx)
        · cases h
      rw [hf]

/-- Witness for Claim C5 at a concrete hostname and state. -/
theorem c5_site_variants_witness :
    ((['a'] : Hostname) ∈ (add_site ['a'] ⟨[], [], true⟩).blocked_sites ∧
     wwwDot ++ ['a'] ∈ (add_site ['a'] ⟨[], [], true⟩).blocked_sites) ∧
    (([] : List Hostname).Nodup →
      (add_site ['a'] ⟨[], [], true⟩).blocked_sites.Nodup) ∧
    (¬ (['a'] : Hostname) ∈ (remove_site ['a'] ⟨[], [], true⟩).blocked_sites ∧
     ¬ wwwDot ++ ['a'] ∈ (remove_site ['a'] ⟨[], [], true⟩).blocked_sites) ∧
    (¬ (['a'] : Hostname) ∈ ([] : List Hostname) →
     ¬ wwwDot ++ ['a'] ∈ ([] : List Hostname) →
      remove_site ['a'] ⟨[], [], true⟩ = ⟨[], [], true⟩) :=
  c5_site_variants ['a'] ⟨[], [], true⟩ ['a'] (wwwDot ++ ['a'])
    (by decide) rfl

/-- Claim C6: exceptions match the exact normalized hostname only.  With both
`n` and `www.n` blocked and an exception just added for `n`, while the
exception is active the effective blocklist excludes `n` but still contains
`www.n` (provided `www.n` has no active exception of its own). -/
theorem c6_exception_exact_match (site : Hostname) (minutes now t : Int)
    (cfg : Config)
    (hen : cfg.enabled = true)
    (hb : normalize site ∈ cfg.blocked_sites)
    (hw : wwwDot ++ normalize site ∈ cfg.blocked_sites)
    (hact : t < now + minutes)
    (hnw : ∀ e ∈ cfg.exceptions, e.site = wwwDot ++ normalize site →
      e.untilT ≤ t) :
    ¬ normalize site ∈
      (get_effective_blocklist t (add_exception site minutes now cfg)).1 ∧
    wwwDot ++ normalize site ∈
      (get_effective_blocklist t (add_exception site minutes now cfg)).1 := by
  have hen' : (add_exception site minutes now cfg).enabled = cfg.enabled := rfl
  have hbs : (add_exception site minutes now cfg).blocked_sites =
      cfg.blocked_sites := rfl
  have hex : (add_exception site minutes now cfg).exceptions =
      cfg.exceptions.filter (fun e => ¬ e.site = normalize site) ++
        [⟨normalize site, now + minutes⟩] := rfl
  constructor
  · rw [mem_effective_iff]
    rintro ⟨-, -, hno⟩
    refine hno ⟨⟨normalize site, now + minutes⟩, ?_, rfl, hact⟩
    rw [hex]
    exact List.mem_append_right _ (List.mem_singleton_self _)
  · rw [mem_effective_iff]
    refine ⟨by rw [hen']; exact hen, by rw [hbs]; exact hw, ?_⟩
    rintro ⟨e, he, hsite, hlt⟩
    rw [hex] at he
    rcases List.mem_append.mp he with h1 | h2
    · rw [List.mem_filter] at h1
      have hle := hnw e h1.1 hsite
      omega
    · rw [List.mem_singleton] at h2
      subst h2
      exact wwwDot_append_ne (normalize site) hsite.symm

/-- Witness for Claim C6 at a concrete state. -/
theorem c6_exception_exact_match_witness :
    ¬ normalize ['a'] ∈ (get_effective_blocklist 5
      (add_exception ['a'] 15 0 ⟨[['a'], wwwDot ++ ['a']], [], true⟩)).1 ∧
    wwwDot ++ normalize ['a'] ∈ (get_effective_blocklist 5
      (add_exception ['a'] 15 0 ⟨[['a'], wwwDot ++ ['a']], [], true⟩)).1 :=
  c6_exception_exact_match ['a'] 15 0 5 ⟨[['a'], wwwDot ++ ['a']], [], true⟩
    rfl (by decide) (by decide) (by decide) (by decide)

/-- Claim C8, counterexample: `Config.save` on a concrete path performs no
rename and opens the config file itself in truncating write mode, so its
operation trace is not write-then-replace. -/
theorem c8_counterexample :
    ¬ writeThenReplace "config.json".data
      (saveOps "config.json".data "policy".data) := by
  decide

/-- Claim C8, amended: `save()` persists the full policy by opening the
config file itself in truncating write mode and writing the serialized data —
in-place truncation with no rename, not atomic write-then-replace. -/
theorem c8_save_in_place (path data : List Char) :
    inPlaceTruncation path (saveOps path data) := by
  constructor
  · exact List.mem_cons_self _ _
  · intro op hop
    simp only [saveOps, List.mem_cons, List.mem_singleton] at hop
    rcases hop with h | h | h
    · subst h; rfl
    · subst h; rfl
    · cases h

/-- Claim C9: a control POST to the four site-mutating routes whose body
lacks the `site` field (or carries it empty) is answered 400 and performs no
mutation: the config state is unchanged, nothing is saved, and the hosts file
is not rewritten. -/
theorem c9_missing_site_rejected (now : Int) (route : ApiRoute)
    (body : ReqBody) (cfg : Config)
    (hroute : route = ApiRoute.addSite ∨ route = ApiRoute.removeSite ∨
      route = ApiRoute.addException ∨ route = ApiRoute.removeException)
    (hsite : body.site = none ∨ body.site = some []) :
    do_POST now route body cfg = ⟨400, cfg, false, false⟩ := by
  have hs : (body.site.getD []).isEmpty = true := by
    rcases hsite with h | h <;> simp [h]
  rcases hroute with h | h | h | h <;> subst h <;> simp [do_POST, hs]

/-- Witness for Claim C9 at a concrete request and state. -/
theorem c9_missing_site_rejected_witness :
    do_POST 0 ApiRoute.addSite ⟨none, none⟩ ⟨[['a']], [], true⟩ =
      ⟨400, ⟨[['a']], [], true⟩, false, false⟩ :=
  c9_missing_site_rejected 0 ApiRoute.addSite ⟨none, none⟩ ⟨[['a']], [], true⟩
    (Or.inl rfl) (Or.inl rfl)

/-! Section: lemmas about line splitting and joining. -/

theorem noNl_splitOnNl (s : List Char) : ∀ l ∈ splitOnNl s, ¬ '\n' ∈ l := by
  induction s with
  | nil =>
    intro l hl
    simp only [splitOnNl, List.mem_singleton] at hl
    subst hl
    simp
  | cons c cs ih =>
    intro l hl
    by_cases hc : c = '\n'
    · rw [splitOnNl, if_pos hc] at hl
      rcases List.mem_cons.mp hl with h | h
      · subst h; simp
      · exact ih l h
    · rw [splitOnNl, if_neg hc] at hl
      cases hsp : splitOnNl cs with
      | nil =>
        rw [hsp] at hl
        simp only [List.mem_singleton] at hl
        subst hl
        intro hmem
        rcases List.mem_cons.mp hmem with h2 | h2
        · exact hc h2.symm
        · simp at h2
      | cons m ms =>
        rw [hsp] at hl
        rcases List.mem_cons.mp hl with h | h
        · subst h
          intro hmem
          rcases List.mem_cons.mp hmem with h2 | h2
          · exact hc h2.symm
          · exact ih m (by rw [hsp]; exact List.mem_cons_self _ _) h2
        · exact ih l (by rw [hsp]; exact List.mem_cons_of_mem _ h)

theorem splitOnNl_no_nl (xs : List Char) (h : ¬ '\n' ∈ xs) :
    splitOnNl xs = [xs] := by
  induction xs with
  | nil => rfl
  | cons c cs ih =>
    have hc : ¬ c = '\n' := fun hh => h (hh ▸ List.mem_cons_self c cs)
    have hcs : ¬ '\n' ∈ cs := fun hh => h (List.mem_cons_of_mem _ hh)
    rw [splitOnNl, if_neg hc, ih hcs]

theorem splitOnNl_append_nl (xs ys : List Char) (h : ¬ '\n' ∈ xs) :
    splitOnNl (xs ++ '\n' :: ys) = xs :: splitOnNl ys := by
  induction xs with
  | nil => simp [splitOnNl]
  | cons c cs ih =>
    have hc : ¬ c = '\n' := fun hh => h (hh ▸ List.mem_cons_self c cs)
    have hcs : ¬ '\n' ∈ cs := fun hh => h (List.mem_cons_of_mem _ hh)
    rw [List.cons_append, splitOnNl, if_neg hc, ih hcs]

theorem splitOnNl_joinNl (R : List (List Char)) (hR : ∀ l ∈ R, ¬ '\n' ∈ l)
    (hne : R ≠ []) : splitOnNl (joinNl R) = R := by
  induction R with
  | nil => cases hne rfl
  | cons a r ih =>
    cases r with
    | nil => exact splitOnNl_no_nl a (hR a (List.mem_cons_self _ _))
    | cons b r' =>
      rw [joinNl, splitOnNl_append_nl _ _ (hR a (List.mem_cons_self _ _)),
        ih (fun l hl => hR l (List.mem_cons_of_mem _ hl)) (by simp)]

theorem splitOnNl_joinNl_append (R : List (List Char)) (T : List Char)
    (hR : ∀ l ∈ R, ¬ '\n' ∈ l) :
    splitOnNl (joinNl R ++ '\n' :: T) =
      (if R = [] then [[]] else R) ++ splitOnNl T := by
  induction R with
  | nil => simp [joinNl, splitOnNl]
  | cons a r ih =>
    cases r with
    | nil =>
      rw [joinNl, splitOnNl_append_nl a T (hR a (List.mem_cons_self _ _))]
      simp
    | cons b r' =>
      have hshape : joinNl (a :: b :: r') ++ '\n' :: T =
          a ++ '\n' :: (joinNl (b :: r') ++ '\n' :: T) := by
        rw [joinNl, List.append_assoc, List.cons_append]
      rw [hshape, splitOnNl_append_nl a _ (hR a (List.mem_cons_self _ _)),
        ih (fun l hl => hR l (List.mem_cons_of_mem _ hl))]
      simp

/-! Section: lemmas about the substring test. -/

theorem isPrefixB_subset (n : List Char) :
    ∀ h, isPrefixB n h = true → ∀ a ∈ n, a ∈ h := by
  induction n with
  | nil =>
    intro h _ a ha
    simp at ha
  | cons x n' ih =>
    intro h hp a ha
    cases h with
    | nil => simp [isPrefixB] at hp
    | cons y t =>
      rw [isPrefixB, Bool.and_eq_true, beq_iff_eq] at hp
      rcases List.mem_cons.mp ha with h1 | h1
      · rw [h1, hp.1]
        exact List.mem_cons_self _ _
      · exact List.mem_cons_of_mem _ (ih t hp.2 a h1)

theorem containsSub_subset (n : List Char) :
    ∀ h, containsSub n h = true → ∀ a ∈ n, a ∈ h := by
  intro h
  induction h with
  | nil =>
    intro hc a ha
    cases n with
    | nil => simp at ha
    | cons x n' => simp [containsSub, isPrefixB] at hc
  | cons c t ih =>
    intro hc a ha
    rw [containsSub, Bool.or_eq_true] at hc
    rcases hc with h1 | h1
    · exact isPrefixB_subset n _ h1 a ha
    · exact List.mem_cons_of_mem _ (ih h1 a ha)

theorem no_hash_no_markers (l : List Char) (h : ¬ '#' ∈ l) :
    containsSub MARKER_START l = false ∧ containsSub MARKER_END l = false := by
  constructor
  · cases hc : containsSub MARKER_START l with
    | false => rfl
    | true => exact absurd (containsSub_subset _ l hc '#' (by decide)) h
  · cases hc : containsSub MARKER_END l with
    | false => rfl
    | true => exact absurd (containsSub_subset _ l hc '#' (by decide)) h

theorem entryLine_props (s : Hostname) (hv : validHost s) :
    ¬ '\n' ∈ entryLine s ∧ containsSub MARKER_START (entryLine s) = false ∧
      containsSub MARKER_END (entryLine s) = false := by
  obtain ⟨hn, hh⟩ := hv
  have hn' : ¬ '\n' ∈ entryLine s := by
    intro hmem
    unfold entryLine at hmem
    rcases List.mem_append.mp hmem with h1 | h1
    · exact absurd h1 (by decide)
    · exact hn h1
  have hh' : ¬ '#' ∈ entryLine s := by
    intro hmem
    unfold entryLine at hmem
    rcases List.mem_append.mp hmem with h1 | h1
    · exact absurd h1 (by decide)
    · exact hh h1
  exact ⟨hn', no_hash_no_markers _ hh'⟩

/-! Section: lemmas about trailing-blank removal. -/

theorem dropWhile_self_idem {α : Type} (p : α → Bool) (l : List α) :
    List.dropWhile p (List.dropWhile p l) = List.dropWhile p l := by
  induction l with
  | nil => rfl
  | cons c cs ih =>
    cases hp : p c with
    | true => simp [List.dropWhile_cons, hp, ih]
    | false => simp [List.dropWhile_cons, hp]

theorem dTB_append_blank (xs : List (List Char)) (b : List Char)
    (hb : isBlankLine b = true) :
    dropTrailingBlanks (xs ++ [b]) = dropTrailingBlanks xs := by
  unfold dropTrailingBlanks
  rw [List.reverse_append]
  simp [List.dropWhile_cons, hb]

theorem dTB_idem (xs : List (List Char)) :
    dropTrailingBlanks (dropTrailingBlanks xs) = dropTrailingBlanks xs := by
  unfold dropTrailingBlanks
  rw [List.reverse_reverse, dropWhile_self_idem]

theorem dTB_mem (xs : List (List Char)) :
    ∀ l ∈ dropTrailingBlanks xs, l ∈ xs := by
  intro l hl
  unfold dropTrailingBlanks at hl
  rw [List.mem_reverse] at hl
  have h2 := (List.dropWhile_sublist (l := xs.reverse) isBlankLine).subset hl
  exact List.mem_reverse.mp h2

/-! Section: lemmas about the marker-stripping loop. -/

theorem stripLoop_cons (l : List Char) (ls : List (List Char)) (b : Bool) :
    stripLoop (l :: ls) b =
      if containsSub MARKER_START l then stripLoop ls true
      else if containsSub MARKER_END l then stripLoop ls false
      else if b then stripLoop ls b
      else l :: stripLoop ls b := rfl

theorem joinNl_cons_cons (a b : List Char) (t : List (List Char)) :
    joinNl (a :: b :: t) = a ++ '\n' :: joinNl (b :: t) := rfl

theorem stripLoop_mem (ls : List (List Char)) (b : Bool) :
    ∀ l ∈ stripLoop ls b, l ∈ ls ∧ containsSub MARKER_START l = false ∧
      containsSub MARKER_END l = false := by
  induction ls generalizing b with
  | nil =>
    intro l hl
    simp [stripLoop] at hl
  | cons x xs ih =>
    intro l hl
    cases h1 : containsSub MARKER_START x with
    | true =>
      rw [stripLoop, if_pos h1] at hl
      obtain ⟨hm, hs, he⟩ := ih true l hl
      exact ⟨List.mem_cons_of_mem _ hm, hs, he⟩
    | false =>
      rw [stripLoop, if_neg (by simp [h1])] at hl
      cases h2 : containsSub MARKER_END x with
      | true =>
        rw [if_pos h2] at hl
        obtain ⟨hm, hs, he⟩ := ih false l hl
        exact ⟨List.mem_cons_of_mem _ hm, hs, he⟩
      | false =>
        rw [if_neg (by simp [h2])] at hl
        cases b with
        | true =>
          rw [if_pos rfl] at hl
          obtain ⟨hm, hs, he⟩ := ih true l hl
          exact ⟨List.mem_cons_of_mem _ hm, hs, he⟩
        | false =>
          rw [if_neg (by simp)] at hl
          rcases List.mem_cons.mp hl with h | h
          · subst h
            exact ⟨List.mem_cons_self _ _, h1, h2⟩
          · obtain ⟨hm, hs, he⟩ := ih false l h
            exact ⟨List.mem_cons_of_mem _ hm, hs, he⟩

theorem stripLoop_clean_append (xs ys : List (List Char))
    (h : ∀ l ∈ xs, containsSub MARKER_START l = false ∧
      containsSub MARKER_END l = false) :
    stripLoop (xs ++ ys) false = xs ++ stripLoop ys false := by
  induction xs with
  | nil => rfl
  | cons x xs' ih =>
    obtain ⟨h1, h2⟩ := h x (List.mem_cons_self _ _)
    rw [List.cons_append, stripLoop, if_neg (by simp [h1]),
      if_neg (by simp [h2]), if_neg (by simp),
      ih (fun l hl => h l (List.mem_cons_of_mem _ hl)), List.cons_append]

theorem stripLoop_clean (xs : List (List Char))
    (h : ∀ l ∈ xs, containsSub MARKER_START l = false ∧
      containsSub MARKER_END l = false) :
    stripLoop xs false = xs := by
  have h2 := stripLoop_clean_append xs [] h
  rw [List.append_nil] at h2
  rw [h2, show stripLoop ([] : List (List Char)) false = [] from rfl,
    List.append_nil]

theorem stripLoop_inside_skip (xs ys : List (List Char))
    (h : ∀ l ∈ xs, containsSub MARKER_START l = false ∧
      containsSub MARKER_END l = false) :
    stripLoop (xs ++ ys) true = stripLoop ys true := by
  induction xs with
  | nil => rfl
  | cons x xs' ih =>
    obtain ⟨h1, h2⟩ := h x (List.mem_cons_self _ _)
    rw [List.cons_append, stripLoop, if_neg (by simp [h1]),
      if_neg (by simp [h2]), if_pos rfl]
    exact ih (fun l hl => h l (List.mem_cons_of_mem _ hl))

theorem stripOur_lines_no_nl (c : List Char) :
    ∀ l ∈ dropTrailingBlanks (stripLoop (splitOnNl c) false), ¬ '\n' ∈ l :=
  fun l hl =>
    noNl_splitOnNl c l ((stripLoop_mem _ _ l (dTB_mem _ l hl)).1)

theorem stripOur_lines_clean (c : List Char) :
    ∀ l ∈ dropTrailingBlanks (stripLoop (splitOnNl c) false),
      containsSub MARKER_START l = false ∧ containsSub MARKER_END l = false :=
  fun l hl => (stripLoop_mem _ _ l (dTB_mem _ l hl)).2

theorem stripOur_idem (c : List Char) : stripOur (stripOur c) = stripOur c := by
  unfold stripOur
  by_cases hne : dropTrailingBlanks (stripLoop (splitOnNl c) false) = []
  · rw [hne]
    rfl
  · rw [splitOnNl_joinNl _ (stripOur_lines_no_nl c) hne,
      stripLoop_clean _ (stripOur_lines_clean c), dTB_idem]

/-- Result of stripping a freshly rendered region (plus the blank line that
the final newline produces) starting outside the region: only the blank line
survives. -/
theorem stripLoop_region (entries : List (List Char))
    (h : ∀ l ∈ entries, containsSub MARKER_START l = false ∧
      containsSub MARKER_END l = false) :
    stripLoop ((MARKER_START :: entries ++ [MARKER_END]) ++ [[]]) false
      = [[]] := by
  have h1 : (MARKER_START :: entries ++ [MARKER_END]) ++ [[]] =
      MARKER_START :: (entries ++ ([MARKER_END] ++ [[]])) := by
    simp
  rw [h1, stripLoop_cons,
    if_pos (show containsSub MARKER_START MARKER_START = true by decide),
    stripLoop_inside_skip entries _ h]
  decide

/-- The core frame lemma: one `apply_blocklist` call never changes the
stripped outside content of the file. -/
theorem stripOur_apply (sites : List Hostname) (c : List Char)
    (hv : ∀ s ∈ sites, validHost s) :
    stripOur (apply_blocklist sites c) = stripOur c := by
  unfold apply_blocklist
  dsimp only
  cases sites with
  | nil =>
    simpa using stripOur_idem c
  | cons s0 rest =>
    rw [if_neg (by simp)]
    have hentries : ∀ l ∈ (s0 :: rest).map entryLine,
        containsSub MARKER_START l = false ∧
          containsSub MARKER_END l = false := by
      intro l hl
      obtain ⟨s, hsmem, hrfl⟩ := List.mem_map.mp hl
      obtain ⟨-, hS, hE⟩ := entryLine_props s (hv s hsmem)
      rw [← hrfl]
      exact ⟨hS, hE⟩
    have hentries_nl : ∀ l ∈ (s0 :: rest).map entryLine, ¬ '\n' ∈ l := by
      intro l hl
      obtain ⟨s, hsmem, hrfl⟩ := List.mem_map.mp hl
      obtain ⟨hN, -, -⟩ := entryLine_props s (hv s hsmem)
      rw [← hrfl]
      exact hN
    have hRL_nl : ∀ l ∈ MARKER_START :: (s0 :: rest).map entryLine
        ++ [MARKER_END], ¬ '\n' ∈ l := by
      intro l hl
      rcases List.mem_cons.mp hl with h | h
      · subst h; decide
      · rcases List.mem_append.mp h with h2 | h2
        · exact hentries_nl l h2
        · rw [List.mem_singleton] at h2; subst h2; decide
    have hblock : joinNl ((('\n' :: MARKER_START)) ::
        (s0 :: rest).map entryLine ++ [MARKER_END]) ++ ['\n'] =
        '\n' :: (joinNl (MARKER_START :: (s0 :: rest).map entryLine
          ++ [MARKER_END]) ++ '\n' :: []) := by
      simp [List.map_cons, joinNl_cons_cons]
    rw [hblock]
    show joinNl (dropTrailingBlanks (stripLoop (splitOnNl (joinNl
      (dropTrailingBlanks (stripLoop (splitOnNl c) false)) ++ '\n' ::
        (joinNl (MARKER_START :: (s0 :: rest).map entryLine ++ [MARKER_END])
          ++ '\n' :: []))) false)) = stripOur c
    rw [splitOnNl_joinNl_append _ _ (stripOur_lines_no_nl c),
      splitOnNl_joinNl_append _ _ hRL_nl,
      if_neg (show ¬ MARKER_START :: (s0 :: rest).map entryLine
        ++ [MARKER_END] = [] by simp)]
    by_cases hne : dropTrailingBlanks (stripLoop (splitOnNl c) false) = []
    · rw [if_pos hne]
      show joinNl (dropTrailingBlanks (stripLoop ([[]] ++
        ((MARKER_START :: (s0 :: rest).map entryLine ++ [MARKER_END])
          ++ [[]])) false)) = stripOur c
      rw [stripLoop_clean_append [[]] _ (by intro l hl; rw [List.mem_singleton] at hl; subst hl; exact ⟨by decide, by decide⟩),
        stripLoop_region _ hentries]
      unfold stripOur
      rw [hne]
      rfl
    · rw [if_neg hne]
      show joinNl (dropTrailingBlanks (stripLoop
        (dropTrailingBlanks (stripLoop (splitOnNl c) false) ++
          ((MARKER_START :: (s0 :: rest).map entryLine ++ [MARKER_END])
            ++ [[]])) false)) = stripOur c
      rw [stripLoop_clean_append _ _ (stripOur_lines_clean c),
        stripLoop_region _ hentries,
        dTB_append_blank _ _ (by decide), dTB_idem]
      rfl

/-- The output of `apply_blocklist` depends on the old content only through
`stripOur` of it. -/
theorem apply_depends_on_strip (sites : List Hostname) (x y : List Char)
    (h : stripOur x = stripOur y) :
    apply_blocklist sites x = apply_blocklist sites y := by
  simp only [apply_blocklist]
  rw [h]

/-- Claim C1: for every list of hostnames (strings without newline or `#`,
which every hostname is), applying `apply_blocklist` twice in a row yields
byte-identical file content — the second apply writes exactly the bytes the
first one wrote. -/
theorem c1_apply_idempotent (sites : List Hostname) (c : List Char)
    (hv : ∀ s ∈ sites, validHost s) :
    apply_blocklist sites (apply_blocklist sites c) =
      apply_blocklist sites c :=
  apply_depends_on_strip sites _ c (stripOur_apply sites c hv)

/-- Witness for Claim C1 at a concrete blocklist and file content. -/
theorem c1_apply_idempotent_witness :
    apply_blocklist [['a']] (apply_blocklist [['a']] "localhost x\n".data) =
      apply_blocklist [['a']] "localhost x\n".data :=
  c1_apply_idempotent [['a']] "localhost x\n".data (by decide)

/-- Claim C2, counterexample: a file ending in a newline and containing no
marker region at all loses that trailing newline under `apply_blocklist []`,
so content outside the marker-delimited region is not preserved
byte-for-byte. -/
theorem c2_counterexample :
    apply_blocklist [] "a\n".data ≠ "a\n".data := by
  decide

/-- Claim C2, amended: across any number of `apply_blocklist`/`clear` calls,
the content outside the marker-delimited region is preserved only up to the
normalization `_strip_our_entries` performs — the region is removed and
trailing blank lines (including the final newline) are dropped; that
normalized outside content is invariant. -/
theorem c2_outside_content (c : List Char) (calls : List (List Hostname))
    (hv : ∀ S ∈ calls, ∀ s ∈ S, validHost s) :
    stripOur (applySeq c calls) = stripOur c := by
  induction calls generalizing c with
  | nil => rfl
  | cons S rest ih =>
    rw [applySeq, List.foldl_cons]
    have h2 := ih (apply_blocklist S c)
      (fun S' hS' => hv S' (List.mem_cons_of_mem _ hS'))
    rw [show List.foldl (fun acc S => apply_blocklist S acc)
        (apply_blocklist S c) rest = applySeq (apply_blocklist S c) rest
      from rfl]
    rw [h2, stripOur_apply S c (hv S (List.mem_cons_self _ _))]

/-- Witness for the amended Claim C2 at a concrete content and call
sequence. -/
theorem c2_outside_content_witness :
    stripOur (applySeq "x\n# comment\n".data [[['a'], ['b']], []]) =
      stripOur "x\n# comment\n".data :=
  c2_outside_content "x\n# comment\n".data [[['a'], ['b']], []] (by decide)

/-- Claim C10: marker detection is by substring, not whole-line equality.
Any line that merely contains the start-marker text anywhere inside it is
dropped and switches the scan state to inside-the-region, and any line that
contains the end-marker text (and not the start marker, which is tested
first) is dropped and switches the state to outside — both for the stripping
loop used by `apply_blocklist`/`clear` (via `stripOur`) and for the
collecting loop of `get_current_blocks`. -/
theorem c10_marker_substring (l l' : List Char) (ls : List (List Char))
    (b : Bool)
    (hs : containsSub MARKER_START l = true)
    (hnm : containsSub MARKER_START l' = false)
    (he : containsSub MARKER_END l' = true) :
    (stripLoop (l :: ls) b = stripLoop ls true ∧
     collectLoop (l :: ls) b = collectLoop ls true) ∧
    (stripLoop (l' :: ls) b = stripLoop ls false ∧
     collectLoop (l' :: ls) b = collectLoop ls false) := by
  refine ⟨⟨?_, ?_⟩, ⟨?_, ?_⟩⟩ <;>
    simp [stripLoop, collectLoop, hs, hnm, he]

/-- Witness for Claim C10: lines that contain a marker with extra text around
it are still treated as delimiters. -/
theorem c10_marker_substring_witness :
    (stripLoop ["xx# === SITE BLOCKER START ===yy".data, ['a']] false =
        stripLoop [['a']] true ∧
     collectLoop ["xx# === SITE BLOCKER START ===yy".data, ['a']] false =
        collectLoop [['a']] true) ∧
    (stripLoop ["!!# === SITE BLOCKER END ===zz".data, ['a']] false =
        stripLoop [['a']] false ∧
     collectLoop ["!!# === SITE BLOCKER END ===zz".data, ['a']] false =
        collectLoop [['a']] false) :=
  c10_marker_substring "xx# === SITE BLOCKER START ===yy".data
    "!!# === SITE BLOCKER END ===zz".data [['a']] false
    (by decide) (by decide) (by decide)

end SiteBlocker
